import Mathlib

/-!
Verification development for the playlist recommender (`recommend.py`).

The program recommends songs for an input playlist by two phases:
discovery (one catalogue search per input track, counting per-playlist
"hits") and evaluation (fetch the top playlists by hit count and score
them with an artist-diversity formula, accumulating per-candidate
scores).  This file is a shallow embedding of that program:

* Python dicts (which preserve insertion order) are embedded as
  association lists `List (String × α)` with in-place update;
* `collections.Counter.most_common(n)`, i.e. `heapq.nlargest` keyed on
  the count, is documented by Python as equivalent to a stable
  descending sort by count truncated to `n`; a stable sort of
  position-tagged entries is exactly the lexicographic sort by
  (count descending, position ascending), which is how it is embedded;
* the remote catalogue service is an oracle (`Catalogue`); calls that
  the source wraps in `try/except SpotifyException` are `Except`-valued;
* the unguarded `track["artists"][0]` indexing is `Option`-valued:
  `none` models the uncaught `IndexError`;
* the per-candidate accumulator is a Python `float` that only ever
  receives integer playlist scores; it is embedded as `Nat`.
-/

namespace Recommend

/-- Track record as built by `get_playlist_tracks`: id, uri, name and the
catalogue-ordered artist-name list (first artist is "primary"). -/
structure Track where
  id : String
  uri : String
  name : String
  artists : List String
deriving DecidableEq, Repr

/-- Dict lookup (`d.get(k)` / `k in d`): first binding of the key wins.
Association lists built only with `aset`/`aincr` have unique keys, so
this is exactly the Python dict lookup. -/
def alookup {α : Type} : List (String × α) → String → Option α
  | [], _ => none
  | (k, v) :: m, q => if q = k then some v else alookup m q

/-- Dict assignment `d[k] = v`: overwrite in place, keeping the entry
position, else append at the end (Python dicts preserve insertion
order). -/
def aset {α : Type} : List (String × α) → String → α → List (String × α)
  | [], k, v => [(k, v)]
  | (k', v') :: m, k, v =>
      if k = k' then (k', v) :: m else (k', v') :: aset m k v

/-- Counter / defaultdict increment `d[k] += n` with default 0: add in
place, else append the key with the increment. -/
def aincr : List (String × Nat) → String → Nat → List (String × Nat)
  | [], k, n => [(k, n)]
  | (k', v') :: m, k, n =>
      if k = k' then (k', v' + n) :: m else (k', v') :: aincr m k n

/-- Read of a Counter / defaultdict entry: 0 when the key is absent. -/
def agetD (m : List (String × Nat)) (k : String) : Nat :=
  (alookup m k).getD 0

theorem alookup_aset {α : Type} (m : List (String × α)) (k q : String) (v : α) :
    alookup (aset m k v) q = if q = k then some v else alookup m q := by
  induction m with
  | nil =>
      by_cases h : q = k <;> simp [aset, alookup, h]
  | cons p m ih =>
      obtain ⟨k', v'⟩ := p
      by_cases hk : k = k'
      · subst hk
        by_cases hq : q = k <;> simp [aset, alookup, hq]
      · by_cases hq : q = k'
        · subst hq
          have hqk : ¬ q = k := fun h => hk h.symm
          simp [aset, alookup, hk, hqk]
        · simp [aset, alookup, hk, hq, ih]

theorem alookup_aincr (m : List (String × Nat)) (k q : String) (n : Nat) :
    alookup (aincr m k n) q =
      if q = k then some ((alookup m k).getD 0 + n) else alookup m q := by
  induction m with
  | nil =>
      by_cases h : q = k <;> simp [aincr, alookup, h]
  | cons p m ih =>
      obtain ⟨k', v'⟩ := p
      by_cases hk : k = k'
      · subst hk
        by_cases hq : q = k <;> simp [aincr, alookup, hq]
      · by_cases hq : q = k'
        · subst hq
          have : ¬ q = k := fun h => hk h.symm
          simp [aincr, alookup, hk, this]
        · simp [aincr, alookup, hk, hq, ih]

theorem agetD_aincr (m : List (String × Nat)) (k q : String) (n : Nat) :
    agetD (aincr m k n) q = agetD m q + if q = k then n else 0 := by
  by_cases h : q = k <;> simp [agetD, alookup_aincr, h]

theorem alookup_isSome_aincr (m : List (String × Nat)) (k q : String) (n : Nat) :
    (alookup (aincr m k n) q).isSome = true ↔
      q = k ∨ (alookup m q).isSome = true := by
  by_cases h : q = k <;> simp [alookup_aincr, h]

theorem alookup_isSome_aset {α : Type} (m : List (String × α)) (k q : String) (v : α) :
    (alookup (aset m k v) q).isSome = true ↔
      q = k ∨ (alookup m q).isSome = true := by
  by_cases h : q = k <;> simp [alookup_aset, h]

/-! Scoring engine (`score_playlist`, recommend.py lines 120-144). -/

/-- Body of the loop in `score_playlist`: on a matching track the match
count is incremented and the primary artist looked up via the input's
map is added to the set, guarded by Python truthiness (`if artist:`),
which skips both a missing key (`.get` returning `None`) and an empty
artist name. -/
def score_step (input_track_ids : Finset String)
    (input_artist_by_track : List (String × String))
    (st : Finset String × Nat) (track : Track) : Finset String × Nat :=
  if track.id ∈ input_track_ids then
    match alookup input_artist_by_track track.id with
    | some artist =>
        if artist = "" then (st.1, st.2 + 1) else (insert artist st.1, st.2 + 1)
    | none => (st.1, st.2 + 1)
  else st

/-- Embedding of `score_playlist`: returns
`(score, matching_count, distinct matching artist count)`, with
`score = matching_count * card ^ 2` and an early 0 when no track
matches. -/
def score_playlist (input_track_ids : Finset String)
    (input_artist_by_track : List (String × String))
    (playlist_tracks : List Track) : Nat × Nat × Nat :=
  let r := playlist_tracks.foldl (score_step input_track_ids input_artist_by_track) (∅, 0)
  if r.2 = 0 then (0, r.2, r.1.card)
  else (r.2 * r.1.card ^ 2, r.2, r.1.card)

/-- The artist that a track contributes to the diversity set: its id must
be in the input set, the map lookup must succeed, and the looked-up name
must be non-empty (Python truthiness). -/
def matching_artist (input_track_ids : Finset String)
    (input_artist_by_track : List (String × String)) (t : Track) : Option String :=
  if t.id ∈ input_track_ids then
    match alookup input_artist_by_track t.id with
    | some a => if a = "" then none else some a
    | none => none
  else none

/-- Predicate for a track of the external playlist matching the input set. -/
def is_matching (input_track_ids : Finset String) (t : Track) : Bool :=
  decide (t.id ∈ input_track_ids)

theorem score_fold_eq (ids : Finset String) (amap : List (String × String))
    (l : List Track) (s0 : Finset String × Nat) :
    l.foldl (score_step ids amap) s0 =
      (s0.1 ∪ (l.filterMap (matching_artist ids amap)).toFinset,
       s0.2 + l.countP (is_matching ids)) := by
  induction l generalizing s0 with
  | nil => simp
  | cons t l ih =>
      by_cases hid : t.id ∈ ids
      · cases hl : alookup amap t.id with
        | none =>
            simp [List.foldl_cons, score_step, hid, hl, ih, matching_artist,
              List.countP_cons, is_matching]
            omega
        | some a =>
            by_cases ha : a = ""
            · simp [List.foldl_cons, score_step, hid, hl, ha, ih, matching_artist,
                List.countP_cons, is_matching]
              omega
            · have hstep : score_step ids amap s0 t = (insert a s0.1, s0.2 + 1) := by
                simp [score_step, hid, hl, ha]
              have hma : matching_artist ids amap t = some a := by
                simp [matching_artist, hid, hl, ha]
              rw [List.foldl_cons, hstep, ih, List.filterMap_cons, hma]
              simp only [List.toFinset_cons, List.countP_cons, is_matching, hid,
                Finset.union_insert, Finset.insert_union]
              simp only [Prod.mk.injEq]
              exact ⟨trivial, by simp; omega⟩
      · simp [List.foldl_cons, score_step, hid, ih, matching_artist,
          List.countP_cons, is_matching]

/-- Closed form of `score_playlist`: the early-return branch coincides with
the formula because a zero match count zeroes the product. -/
theorem score_playlist_eq (ids : Finset String) (amap : List (String × String))
    (l : List Track) :
    score_playlist ids amap l =
      (l.countP (is_matching ids) * (l.filterMap (matching_artist ids amap)).toFinset.card ^ 2,
       l.countP (is_matching ids),
       (l.filterMap (matching_artist ids amap)).toFinset.card) := by
  unfold score_playlist
  rw [score_fold_eq]
  simp only [Finset.empty_union, Nat.zero_add]
  by_cases h : l.countP (is_matching ids) = 0
  · simp [h]
  · simp [h]

/-! Catalogue oracle and discovery phase (recommend.py lines 85-117). -/

/-- Oracle for the remote catalogue service (spotipy client).  `search`
returns the raw `playlists.items` entries for a query and result limit
(`none` entries model null playlist objects, filtered by `if p`);
`playlist_tracks` is the paginated track-list fetch; both are
`Except`-valued because the source catches `SpotifyException` around
them (search in `search_public_playlists`, fetch in phase 2).
`playlist_name` and `create` model `sp.playlist(..., fields="name")` and
playlist creation returning the shareable external URL. -/
structure Catalogue where
  search : String → Nat → Except Unit (List (Option String))
  playlist_tracks : String → Except Unit (List Track)
  playlist_name : String → String
  create : String → String → List String → String

/-- Query string `f"{track['name']} {track['artists'][0]}"`.  The
indexing `track["artists"][0]` is unguarded and outside the
`try` block: an empty artist list raises `IndexError`, modelled by
`none`. -/
def search_query (track : Track) : Option String :=
  match track.artists with
  | [] => none
  | a :: _ => some (track.name ++ " " ++ a)

/-- Embedding of `search_public_playlists`: a catalogue error is caught
and converted to an empty result; the `IndexError` from the query
construction propagates (`none`). -/
def search_public_playlists (cat : Catalogue) (track : Track) (limit : Nat) :
    Option (List String) :=
  match search_query track with
  | none => none
  | some q =>
      match cat.search q limit with
      | .error _ => some []
      | .ok items => some (items.filterMap id)

/-- Loop of `discover_playlists`: one search per input track; the set of
distinct playlist ids of that one query (`set(playlist_ids)`, embedded
as `dedup` — the hit counts do not depend on the set's iteration order)
each get their hit count incremented by 1. -/
def discover_aux (cat : Catalogue) (srpt : Nat) :
    List Track → List (String × Nat) → Option (List (String × Nat))
  | [], hit_counts => some hit_counts
  | track :: rest, hit_counts =>
      match search_public_playlists cat track srpt with
      | none => none
      | some playlist_ids =>
          discover_aux cat srpt rest
            (playlist_ids.dedup.foldl (fun c pid => aincr c pid 1) hit_counts)

/-- Embedding of `discover_playlists` (phase 1): returns the hit-count
table in discovery (insertion) order. -/
def discover_playlists (cat : Catalogue) (input_tracks : List Track)
    (search_results_per_track : Nat) : Option (List (String × Nat)) :=
  discover_aux cat search_results_per_track input_tracks []

/-! Ranking (`Counter.most_common`, used at recommend.py line 179 for the
phase-2 funnel and line 292 for the final top-K). -/

/-- Ordering used to embed `Counter.most_common`: descending count, ties
by ascending position in the table (= insertion order). -/
def rank_le (a b : Nat × (String × Nat)) : Bool :=
  decide (b.2.2 < a.2.2) || (decide (a.2.2 = b.2.2) && decide (a.1 ≤ b.1))

/-- The full table sorted for `most_common`, with each entry tagged by
its position.  `Counter.most_common(n)` is `heapq.nlargest(n, items,
key=itemgetter(1))`, which Python documents as equivalent to
`sorted(items, key, reverse=True)[:n]`; `sorted` is stable, and a stable
descending sort by count of position-tagged entries is exactly the
lexicographic sort by (count descending, position ascending). -/
def most_common_ranked (items : List (String × Nat)) : List (Nat × (String × Nat)) :=
  items.enum.mergeSort rank_le

/-- Embedding of `Counter.most_common(n)` on a table in insertion order. -/
def most_common (items : List (String × Nat)) (n : Nat) : List (String × Nat) :=
  ((most_common_ranked items).take n).map Prod.snd

/-! Evaluation phase (recommend.py lines 182-212). -/

/-- The two candidate tables: `candidate_scores` (a `defaultdict(float)`
receiving integer playlist scores) and `candidate_info`. -/
structure EvalState where
  scores : List (String × Nat)
  info : List (String × Track)
deriving DecidableEq, Repr

/-- Body of the candidate loop: every track of the evaluated playlist
whose id is not in the input set gets the whole playlist score added to
its accumulator, and its info entry assigned (`candidate_info[t["id"]] = t`). -/
def cand_step (input_track_ids : Finset String) (score : Nat)
    (st : EvalState) (t : Track) : EvalState :=
  if t.id ∉ input_track_ids then
    ⟨aincr st.scores t.id score, aset st.info t.id t⟩
  else st

/-- The candidate loop over a fetched playlist's track list. -/
def add_candidates (input_track_ids : Finset String) (score : Nat)
    (st : EvalState) (pl_tracks : List Track) : EvalState :=
  pl_tracks.foldl (cand_step input_track_ids score) st

/-- One phase-2 iteration: a failed fetch is skipped (`continue`), a zero
score is skipped, otherwise the candidate loop runs. -/
def eval_playlist (input_track_ids : Finset String)
    (input_artist_by_track : List (String × String)) (st : EvalState)
    (fetched : Except Unit (List Track)) : EvalState :=
  match fetched with
  | .error _ => st
  | .ok pl_tracks =>
      if (score_playlist input_track_ids input_artist_by_track pl_tracks).1 = 0 then st
      else
        add_candidates input_track_ids
          (score_playlist input_track_ids input_artist_by_track pl_tracks).1 st pl_tracks

/-! The orchestrator `find_recommendations` (recommend.py lines 147-212). -/

/-- Loop of the dict comprehension
`{t["id"]: t["artists"][0] for t in input_tracks}`: later duplicate ids
overwrite, and an empty artist list raises `IndexError` (`none`). -/
def build_artist_map_aux : List Track → List (String × String) →
    Option (List (String × String))
  | [], m => some m
  | t :: rest, m =>
      match t.artists with
      | [] => none
      | a :: _ => build_artist_map_aux rest (aset m t.id a)

/-- The `input_artist_by_track` map of `find_recommendations`. -/
def build_artist_map (input_tracks : List Track) : Option (List (String × String)) :=
  build_artist_map_aux input_tracks []

/-- Embedding of `find_recommendations`: build the id set and artist map,
discover, early-return on an empty table, rank and truncate to
`fetch_limit`, then fold the evaluation over the selected playlists.
The final `Counter(candidate_scores)` conversion preserves keys and
order and is the identity here.  `none` models an uncaught exception. -/
def find_recommendations (cat : Catalogue) (input_tracks : List Track)
    (fetch_limit : Nat) (search_results_per_track : Nat) :
    Option (List (String × Nat) × List (String × Track)) :=
  let input_track_ids := (input_tracks.map Track.id).toFinset
  match build_artist_map input_tracks with
  | none => none
  | some input_artist_by_track =>
      match discover_playlists cat input_tracks search_results_per_track with
      | none => none
      | some hit_counts =>
          if hit_counts = [] then some ([], [])
          else
            let top_playlists := most_common hit_counts fetch_limit
            let final := top_playlists.foldl
              (fun st ph =>
                eval_playlist input_track_ids input_artist_by_track st
                  (cat.playlist_tracks ph.1))
              ⟨[], []⟩
            some (final.scores, final.info)

/-! The command-line entry point `main` (recommend.py lines 232-309). -/

/-- Character-level prefix match: the remainder of `l` when `sep` is one
of its prefixes. -/
def strip_sep : List Char → List Char → Option (List Char)
  | [], l => some l
  | _ :: _, [] => none
  | s :: ss, c :: cs => if c = s then strip_sep ss cs else none

/-- Fuel-driven splitter over character lists implementing Python's
`str.split(sep)` for a non-empty separator: scan left to right, split at
each non-overlapping occurrence of the separator.  The fuel starts at
the scanned list's length and never runs out. -/
def split_go (sep : List Char) : Nat → List Char → List Char → List (List Char)
  | _, [], acc => [acc.reverse]
  | 0, l, acc => [acc.reverse ++ l]
  | fuel + 1, c :: cs, acc =>
      match strip_sep sep (c :: cs) with
      | some rest => acc.reverse :: split_go sep fuel rest []
      | none => split_go sep fuel cs (c :: acc)

/-- Python's `s.split(sep)` for a non-empty separator. -/
def py_split (s sep : String) : List String :=
  (split_go sep.data s.data.length s.data []).map List.asString

/-- Python's `s.strip()`: drop leading and trailing whitespace. -/
def py_strip (s : String) : String :=
  ((s.data.dropWhile Char.isWhitespace).reverse.dropWhile
    Char.isWhitespace).reverse.asString

/-- Python's `s.startswith(sep)`. -/
def py_startswith (s sep : String) : Bool :=
  (strip_sep sep.data s.data).isSome

/-- Playlist id extraction (`extract_playlist_id`): URL, URI, or bare id.
`py_split` is Python's `str.split`; the `sep in s` test is the split
producing more than one part (true exactly for a non-empty separator
occurring in the string), and `s.split(sep)[i]` with `i = 0` always
exists while `i = 1` exists under the branch's membership test. -/
def extract_playlist_id (playlist_input : String) : String :=
  if (py_split playlist_input "open.spotify.com/playlist/").length > 1 then
    (py_split ((py_split ((py_split playlist_input
        "open.spotify.com/playlist/").getD 1 "") "?").headD "") "/").headD ""
  else if py_startswith playlist_input "spotify:playlist:" then
    (py_split playlist_input "spotify:playlist:").getD 1 ""
  else
    py_strip playlist_input

/-- Python truthiness of `os.getenv`: missing variable or empty string. -/
def falsy_str : Option String → Bool
  | none => true
  | some s => s == ""

/-- The credential check in `authenticate`
(`if not client_id or not client_secret: sys.exit(1)`). -/
def creds_missing (client_id client_secret : Option String) : Bool :=
  falsy_str client_id || falsy_str client_secret

/-- Observable outcome of a `main` run: process exit code, the shareable
reference printed on success, and the number of discovery search calls
issued. -/
structure MainOutcome where
  exit_code : Nat
  printed_ref : Option String
  search_calls : Nat
deriving DecidableEq, Repr

/-- Embedding of `main`.  Discovery issues exactly one search call per
input track (see `discover_aux`), so a run that reaches the end of
`find_recommendations` has issued `input_tracks.length` searches, and
the early exits have issued none.  `none` models a crash by uncaught
exception. -/
def main (client_id client_secret : Option String) (cat : Catalogue)
    (playlist_arg : String) (name_arg : Option String)
    (count fetch_limit search_results_per_track : Nat) : Option MainOutcome :=
  if creds_missing client_id client_secret then some ⟨1, none, 0⟩
  else
    let playlist_id := extract_playlist_id playlist_arg
    match cat.playlist_tracks playlist_id with
    | .error _ => none
    | .ok input_tracks =>
        if input_tracks = [] then some ⟨1, none, 0⟩
        else
          let input_playlist_name := cat.playlist_name playlist_id
          match find_recommendations cat input_tracks fetch_limit
              search_results_per_track with
          | none => none
          | some (candidate_scores, candidate_info) =>
              if candidate_scores = [] then some ⟨1, none, input_tracks.length⟩
              else
                let top_recommendations := most_common candidate_scores count
                match top_recommendations.mapM
                    (fun p => (alookup candidate_info p.1).map Track.uri) with
                | none => none
                | some rec_uris =>
                    let output_name := name_arg.getD
                      ("Recommendations from " ++ input_playlist_name)
                    let description :=
                      "Auto-generated recommendations based on '" ++
                        input_playlist_name ++
                        "'. Songs that frequently appear alongside your favorites in public playlists."
                    some ⟨0, some (cat.create output_name description rec_uris),
                      input_tracks.length⟩

/-! Helper lemmas about the evaluation phase. -/

/-- The table invariant: every key of the score table is a key of the
info table, and no key of either table is an input track id. -/
def TablesInv (ids : Finset String) (st : EvalState) : Prop :=
  (∀ k, (alookup st.scores k).isSome = true → (alookup st.info k).isSome = true) ∧
  (∀ k, (alookup st.scores k).isSome = true → k ∉ ids) ∧
  (∀ k, (alookup st.info k).isSome = true → k ∉ ids)

theorem cand_step_inv (ids : Finset String) (s : Nat) (st : EvalState) (t : Track)
    (h : TablesInv ids st) : TablesInv ids (cand_step ids s st t) := by
  obtain ⟨h1, h2, h3⟩ := h
  by_cases hid : t.id ∉ ids
  · have hstep : cand_step ids s st t =
        ⟨aincr st.scores t.id s, aset st.info t.id t⟩ := by
      simp [cand_step, hid]
    rw [hstep]
    refine ⟨?_, ?_, ?_⟩ <;> intro k hk
    · rw [alookup_isSome_aset]
      rcases (alookup_isSome_aincr st.scores t.id k s).mp hk with h | h
      · exact Or.inl h
      · exact Or.inr (h1 k h)
    · rcases (alookup_isSome_aincr st.scores t.id k s).mp hk with h | h
      · subst h; exact hid
      · exact h2 k h
    · rcases (alookup_isSome_aset st.info t.id k t).mp hk with h | h
      · subst h; exact hid
      · exact h3 k h
  · have hstep : cand_step ids s st t = st := by simp [cand_step, hid]
    rw [hstep]
    exact ⟨h1, h2, h3⟩

theorem add_candidates_inv (ids : Finset String) (s : Nat) (st : EvalState)
    (l : List Track) (h : TablesInv ids st) :
    TablesInv ids (add_candidates ids s st l) := by
  induction l generalizing st with
  | nil => exact h
  | cons t l ih =>
      exact ih (cand_step ids s st t) (cand_step_inv ids s st t h)

theorem eval_playlist_inv (ids : Finset String) (amap : List (String × String))
    (st : EvalState) (fetched : Except Unit (List Track)) (h : TablesInv ids st) :
    TablesInv ids (eval_playlist ids amap st fetched) := by
  cases fetched with
  | error e => exact h
  | ok l =>
      by_cases hz : (score_playlist ids amap l).1 = 0
      · simpa [eval_playlist, hz] using h
      · simpa [eval_playlist, hz] using add_candidates_inv ids _ st l h

theorem foldl_eval_inv (cat : Catalogue) (ids : Finset String)
    (amap : List (String × String)) (tops : List (String × Nat)) (st : EvalState)
    (h : TablesInv ids st) :
    TablesInv ids (tops.foldl
      (fun s ph => eval_playlist ids amap s (cat.playlist_tracks ph.1)) st) := by
  induction tops generalizing st with
  | nil => exact h
  | cons p tops ih => exact ih _ (eval_playlist_inv ids amap st _ h)

theorem empty_tables_inv (ids : Finset String) : TablesInv ids ⟨[], []⟩ := by
  refine ⟨?_, ?_, ?_⟩ <;> intro k hk <;> simp [alookup] at hk

/-- The invariant holds of the pair returned by `find_recommendations`. -/
theorem find_recommendations_inv (cat : Catalogue) (input_tracks : List Track)
    (fl srpt : Nat) (scores : List (String × Nat)) (info : List (String × Track))
    (h : find_recommendations cat input_tracks fl srpt = some (scores, info)) :
    TablesInv ((input_tracks.map Track.id).toFinset) ⟨scores, info⟩ := by
  cases hm : build_artist_map input_tracks with
  | none =>
      simp only [find_recommendations, hm] at h
      exact Option.noConfusion h
  | some amap =>
      cases hd : discover_playlists cat input_tracks srpt with
      | none =>
          simp only [find_recommendations, hm, hd] at h
          exact Option.noConfusion h
      | some hits =>
          simp only [find_recommendations, hm, hd] at h
          by_cases hz : hits = []
          · rw [if_pos hz] at h
            simp only [Option.some.injEq, Prod.mk.injEq] at h
            obtain ⟨hs, hi⟩ := h
            rw [← hs, ← hi]
            exact empty_tables_inv _
          · rw [if_neg hz] at h
            simp only [Option.some.injEq, Prod.mk.injEq] at h
            obtain ⟨hs, hi⟩ := h
            have hinv := foldl_eval_inv cat ((input_tracks.map Track.id).toFinset)
              amap (most_common hits fl) ⟨[], []⟩ (empty_tables_inv _)
            rw [← hs, ← hi]
            exact hinv

/-- Score accumulation over the candidate loop: every occurrence of a
non-input id adds the whole playlist score once. -/
theorem agetD_add_candidates (ids : Finset String) (s : Nat) (st : EvalState)
    (l : List Track) (tid : String) (hid : tid ∉ ids) :
    agetD (add_candidates ids s st l).scores tid =
      agetD st.scores tid + l.countP (fun t => t.id == tid) * s := by
  induction l generalizing st with
  | nil => simp [add_candidates]
  | cons t l ih =>
      rw [add_candidates, List.foldl_cons, ← add_candidates, ih, List.countP_cons]
      by_cases hmem : t.id ∉ ids
      · by_cases heq : t.id = tid
        · subst heq
          simp [cand_step, hmem, agetD_aincr]
          ring
        · have : ¬ (tid = t.id) := fun h => heq h.symm
          simp [cand_step, hmem, agetD_aincr, this, heq]
      · have heq : ¬ (t.id = tid) := by
          intro h; rw [h] at hmem; exact hmem hid
        simp [cand_step, hmem, heq]

/-- Info assignment over the candidate loop: the stored record for a
non-input id is the last occurrence in the evaluated playlist, or the
previously stored one when the playlist has none. -/
theorem alookup_add_candidates_info (ids : Finset String) (s : Nat) (st : EvalState)
    (l : List Track) (tid : String) (hid : tid ∉ ids) :
    alookup (add_candidates ids s st l).info tid =
      match l.reverse.find? (fun t => t.id == tid) with
      | some t => some t
      | none => alookup st.info tid := by
  induction l using List.reverseRecOn with
  | nil => simp [add_candidates]
  | append_singleton l t ih =>
      rw [add_candidates, List.foldl_append, ← add_candidates, ← add_candidates,
        List.reverse_concat]
      have hsingle : ∀ X : EvalState,
          add_candidates ids s X [t] = cand_step ids s X t := by
        intro X; simp [add_candidates]
      rw [hsingle]
      by_cases heq : t.id = tid
      · have hmem : t.id ∉ ids := by rw [heq]; exact hid
        have hstep : cand_step ids s (add_candidates ids s st l) t =
            ⟨aincr (add_candidates ids s st l).scores t.id s,
             aset (add_candidates ids s st l).info t.id t⟩ := by
          simp [cand_step, hmem]
        rw [List.find?_cons_of_pos _ (by simp [heq]), hstep]
        simp [alookup_aset, heq]
      · rw [List.find?_cons_of_neg _ (by simp [heq])]
        by_cases hmem : t.id ∉ ids
        · have hstep : cand_step ids s (add_candidates ids s st l) t =
              ⟨aincr (add_candidates ids s st l).scores t.id s,
               aset (add_candidates ids s st l).info t.id t⟩ := by
            simp [cand_step, hmem]
          have htid : ¬ (tid = t.id) := fun h => heq h.symm
          rw [hstep]
          show alookup (aset (add_candidates ids s st l).info t.id t) tid = _
          rw [alookup_aset, if_neg htid]
          exact ih
        · have hstep : cand_step ids s (add_candidates ids s st l) t =
              add_candidates ids s st l := by
            simp [cand_step, hmem]
          rw [hstep]
          exact ih

/-! Helper lemmas about the ranking. -/

theorem rank_le_trans (a b c : Nat × (String × Nat)) (hab : rank_le a b = true)
    (hbc : rank_le b c = true) : rank_le a c = true := by
  simp only [rank_le, Bool.or_eq_true, Bool.and_eq_true, decide_eq_true_eq] at *
  omega

theorem rank_le_total (a b : Nat × (String × Nat)) :
    (rank_le a b || rank_le b a) = true := by
  simp only [rank_le, Bool.or_eq_true, Bool.and_eq_true, decide_eq_true_eq]
  omega

theorem most_common_ranked_pairwise (items : List (String × Nat)) :
    (most_common_ranked items).Pairwise (fun a b => rank_le a b = true) :=
  List.sorted_mergeSort rank_le_trans rank_le_total items.enum

theorem most_common_ranked_fst_nodup (items : List (String × Nat)) :
    ((most_common_ranked items).map Prod.fst).Nodup := by
  have hperm : ((most_common_ranked items).map Prod.fst).Perm
      (items.enum.map Prod.fst) :=
    (List.mergeSort_perm items.enum rank_le).map Prod.fst
  have hnd : (items.enum.map Prod.fst).Nodup := by
    rw [List.enum_map_fst]
    exact List.nodup_range _
  exact hperm.symm.nodup hnd

theorem mem_enum_of_mem_most_common_ranked (items : List (String × Nat))
    (q : Nat × (String × Nat)) (h : q ∈ most_common_ranked items) :
    q ∈ items.enum :=
  ((List.mergeSort_perm items.enum rank_le).mem_iff).mp h

theorem mem_of_mem_most_common (items : List (String × Nat)) (n : Nat)
    (p : String × Nat) (h : p ∈ most_common items n) : p ∈ items := by
  simp only [most_common, List.mem_map] at h
  obtain ⟨q, hq, hqe⟩ := h
  have hq' : q ∈ items.enum :=
    mem_enum_of_mem_most_common_ranked items q (List.mem_of_mem_take hq)
  obtain ⟨i, x⟩ := q
  obtain ⟨hlt, hx⟩ := List.mem_enum hq'
  rw [← hqe]
  simp only [hx]
  exact List.getElem_mem hlt

/-! Helper lemmas about the discovery phase. -/

theorem search_public_playlists_of_artists (cat : Catalogue) (t : Track)
    (lim : Nat) (h : t.artists ≠ []) :
    ∃ pids, search_public_playlists cat t lim = some pids := by
  cases ht : t.artists with
  | nil => exact absurd ht h
  | cons a rest =>
      cases hs : cat.search (t.name ++ " " ++ a) lim with
      | error e =>
          exact ⟨[], by simp [search_public_playlists, search_query, ht, hs]⟩
      | ok items =>
          exact ⟨items.filterMap id,
            by simp [search_public_playlists, search_query, ht, hs]⟩

theorem agetD_foldl_aincr (L : List String) (c : List (String × Nat)) (pid : String) :
    agetD (L.foldl (fun m p => aincr m p 1) c) pid = agetD c pid + L.count pid := by
  induction L generalizing c with
  | nil => simp
  | cons p L ih =>
      rw [List.foldl_cons, ih, agetD_aincr, List.count_cons]
      by_cases hp : pid = p
      · subst hp
        simp
        omega
      · have hp' : ¬ p = pid := fun h => hp h.symm
        simp [hp, hp']

theorem discover_aux_spec (cat : Catalogue) (srpt : Nat) (l : List Track)
    (c : List (String × Nat)) (pid : String) (h : ∀ t ∈ l, t.artists ≠ []) :
    ∃ counts, discover_aux cat srpt l c = some counts ∧
      agetD counts pid = agetD c pid +
        l.countP (fun t =>
          decide (pid ∈ (search_public_playlists cat t srpt).getD [])) := by
  induction l generalizing c with
  | nil => exact ⟨c, rfl, by simp⟩
  | cons t rest ih =>
      obtain ⟨pids, hs⟩ :=
        search_public_playlists_of_artists cat t srpt (h t (by simp))
      obtain ⟨counts, hc, ha⟩ :=
        ih (pids.dedup.foldl (fun m p => aincr m p 1) c)
          (fun u hu => h u (by simp [hu]))
      refine ⟨counts, by simp [discover_aux, hs, hc], ?_⟩
      rw [ha, agetD_foldl_aincr, List.countP_cons]
      have hd : pids.dedup.count pid = if pid ∈ pids then 1 else 0 := by
        by_cases hm : pid ∈ pids
        · rw [if_pos hm]
          exact List.count_eq_one_of_mem (List.nodup_dedup pids)
            (List.mem_dedup.mpr hm)
        · rw [if_neg hm]
          exact List.count_eq_zero.mpr (fun hx => hm (List.mem_dedup.mp hx))
      rw [hd, hs]
      simp only [Option.getD_some]
      by_cases hm : pid ∈ pids
      · simp [hm]
        omega
      · simp [hm]

theorem build_artist_map_aux_eq_none (l : List Track) (m : List (String × String)) :
    build_artist_map_aux l m = none ↔ ∃ t ∈ l, t.artists = [] := by
  induction l generalizing m with
  | nil => simp [build_artist_map_aux]
  | cons t rest ih =>
      cases ht : t.artists with
      | nil =>
          have hnone : build_artist_map_aux (t :: rest) m = none := by
            simp [build_artist_map_aux, ht]
          rw [hnone]
          exact iff_of_true rfl ⟨t, by simp, ht⟩
      | cons a as =>
          simp only [build_artist_map_aux, ht, ih, List.mem_cons]
          constructor
          · rintro ⟨u, hu, hua⟩
            exact ⟨u, Or.inr hu, hua⟩
          · rintro ⟨u, hu | hu, hua⟩
            · rw [hu] at hua
              rw [hua] at ht
              exact absurd ht (by simp)
            · exact ⟨u, hu, hua⟩

/-! Helper lemmas used for the `main` success path. -/

theorem alookup_isSome_of_mem {α : Type} (m : List (String × α)) (k : String)
    (v : α) (h : (k, v) ∈ m) : (alookup m k).isSome = true := by
  induction m with
  | nil => simp at h
  | cons p m ih =>
      by_cases hk : k = p.1
      · obtain ⟨k', v'⟩ := p
        simp only [alookup]
        rw [if_pos hk]
        rfl
      · obtain ⟨k', v'⟩ := p
        simp only [alookup]
        rw [if_neg hk]
        rcases List.mem_cons.mp h with h' | h'
        · exact absurd (congrArg Prod.fst h') hk
        · exact ih h'

theorem mapM_option_isSome {α β : Type} (f : α → Option β) (l : List α)
    (h : ∀ a ∈ l, (f a).isSome = true) : ∃ r, l.mapM f = some r := by
  induction l with
  | nil => exact ⟨[], rfl⟩
  | cons a l ih =>
      obtain ⟨b, hb⟩ := Option.isSome_iff_exists.mp (h a (by simp))
      obtain ⟨r, hr⟩ := ih (fun x hx => h x (by simp [hx]))
      refine ⟨b :: r, ?_⟩
      rw [List.mapM_cons, hb, hr]
      rfl

/-! Claim C5. -/

/-- C5 (confirmed): `score_playlist` returns the same result for any
permutation of the fetched playlist's track list, and returns score 0
whenever the returned matching count is 0, regardless of the artist set,
for every input track-id set and artist map. -/
theorem score_playlist_perm_invariant (ids : Finset String)
    (amap : List (String × String)) (l l' : List Track) (h : l.Perm l') :
    score_playlist ids amap l = score_playlist ids amap l' ∧
    ((score_playlist ids amap l).2.1 = 0 → (score_playlist ids amap l).1 = 0) := by
  have hc := h.countP_eq (is_matching ids)
  have hf : (l.filterMap (matching_artist ids amap)).toFinset =
      (l'.filterMap (matching_artist ids amap)).toFinset := by
    ext a
    simp [List.mem_toFinset, (h.filterMap (matching_artist ids amap)).mem_iff]
  constructor
  · rw [score_playlist_eq, score_playlist_eq, hc, hf]
  · intro h0
    have h1 : (score_playlist ids amap l).2.1 = l.countP (is_matching ids) := by
      rw [score_playlist_eq]
    have h2 : (score_playlist ids amap l).1 =
        l.countP (is_matching ids) *
          (l.filterMap (matching_artist ids amap)).toFinset.card ^ 2 := by
      rw [score_playlist_eq]
    rw [h2, ← h1, h0, Nat.zero_mul]

/-- Witness for C5 at a concrete two-element playlist and its swap. -/
theorem score_playlist_perm_invariant_witness :
    score_playlist (["i1"].toFinset) [("i1", "a")]
        [⟨"i1", "u1", "s1", ["a"]⟩, ⟨"c", "u2", "s2", ["b"]⟩] =
      score_playlist (["i1"].toFinset) [("i1", "a")]
        [⟨"c", "u2", "s2", ["b"]⟩, ⟨"i1", "u1", "s1", ["a"]⟩] :=
  (score_playlist_perm_invariant (["i1"].toFinset) [("i1", "a")]
    [⟨"i1", "u1", "s1", ["a"]⟩, ⟨"c", "u2", "s2", ["b"]⟩]
    [⟨"c", "u2", "s2", ["b"]⟩, ⟨"i1", "u1", "s1", ["a"]⟩] (by decide)).1

/-! Claim C1. -/

/-- Modelled from the spec for comparison with the code (claim C1): the
set of distinct primary artists of the matching tracks, looked up via
the input's primary-artist map, with no further guard on the looked-up
name. -/
def claim_matching_artists (ids : Finset String) (amap : List (String × String))
    (l : List Track) : Finset String :=
  (l.filterMap (fun t => if t.id ∈ ids then alookup amap t.id else none)).toFinset

/-- Modelled from the spec: claim C1's score formula,
matching_count × (distinct primary artists via the map)². -/
def claim_score (ids : Finset String) (amap : List (String × String))
    (l : List Track) : Nat :=
  l.countP (is_matching ids) * (claim_matching_artists ids amap l).card ^ 2

/-- C1 (counterexample): one matching track whose primary artist in the
map is the empty string.  The claim's formula gives 1 × 1² = 1, but the
code's `if artist:` truthiness guard drops the empty name from the
diversity set and returns 1 × 0² = 0. -/
theorem score_playlist_claim_cex :
    (score_playlist (["a"].toFinset) [("a", "")] [⟨"a", "u", "n", [""]⟩]).1 = 0 ∧
    claim_score (["a"].toFinset) [("a", "")] [⟨"a", "u", "n", [""]⟩] = 1 := by
  constructor <;> rfl

/-- C1 (amended, proved): `score_playlist` returns
matching_count × (distinct primary artists of the matching tracks whose
lookup via the input's primary-artist map yields a non-empty name)², and
matching_count is the number of entries whose id is in the input set;
when the score is nonzero the playlist's evaluation is exactly the
candidate loop, in which every entry whose id is not in the input set
has exactly that score (undivided) added to its accumulator. -/
theorem score_playlist_artist_diversity (ids : Finset String)
    (amap : List (String × String)) (l : List Track) :
    (score_playlist ids amap l).1 =
      l.countP (is_matching ids) *
        (l.filterMap (matching_artist ids amap)).toFinset.card ^ 2 ∧
    (score_playlist ids amap l).2.1 = l.countP (is_matching ids) ∧
    (∀ st : EvalState, (score_playlist ids amap l).1 ≠ 0 →
        eval_playlist ids amap st (.ok l) =
          add_candidates ids (score_playlist ids amap l).1 st l) ∧
    (∀ (s : Nat) (st : EvalState) (t : Track), t.id ∉ ids →
        agetD (cand_step ids s st t).scores t.id = agetD st.scores t.id + s) := by
  refine ⟨by rw [score_playlist_eq], by rw [score_playlist_eq], ?_, ?_⟩
  · intro st hs
    simp [eval_playlist, hs]
  · intro s st t hid
    simp [cand_step, hid, agetD_aincr]

/-- Witness for the amended C1 at a concrete playlist with one match and
one candidate entry. -/
theorem score_playlist_artist_diversity_witness :
    eval_playlist (["i"].toFinset) [("i", "a")] ⟨[], []⟩
        (.ok [⟨"i", "u", "s", ["a"]⟩, ⟨"c", "uc", "n", ["x"]⟩]) =
      add_candidates (["i"].toFinset)
        (score_playlist (["i"].toFinset) [("i", "a")]
          [⟨"i", "u", "s", ["a"]⟩, ⟨"c", "uc", "n", ["x"]⟩]).1 ⟨[], []⟩
        [⟨"i", "u", "s", ["a"]⟩, ⟨"c", "uc", "n", ["x"]⟩] ∧
    agetD (cand_step (["i"].toFinset) 8 ⟨[], []⟩ ⟨"c", "uc", "n", ["x"]⟩).scores "c" =
      agetD (⟨[], []⟩ : EvalState).scores "c" + 8 :=
  ⟨(score_playlist_artist_diversity (["i"].toFinset) [("i", "a")]
      [⟨"i", "u", "s", ["a"]⟩, ⟨"c", "uc", "n", ["x"]⟩]).2.2.1 ⟨[], []⟩ (by decide),
   (score_playlist_artist_diversity (["i"].toFinset) [("i", "a")]
      [⟨"i", "u", "s", ["a"]⟩, ⟨"c", "uc", "n", ["x"]⟩]).2.2.2 8 ⟨[], []⟩
     ⟨"c", "uc", "n", ["x"]⟩ (by decide)⟩

/-! Claim C10. -/

/-- C10 (confirmed): candidate occurrences are not de-duplicated within a
single evaluated playlist — an id not in the input set occurring k times
in the playlist's track list gets k × score (not score once) added to
its accumulator. -/
theorem per_occurrence_accumulation (ids : Finset String)
    (amap : List (String × String)) (st : EvalState) (l : List Track)
    (tid : String) (hid : tid ∉ ids) (hs : (score_playlist ids amap l).1 ≠ 0) :
    agetD (eval_playlist ids amap st (.ok l)).scores tid =
      agetD st.scores tid +
        l.countP (fun t => t.id == tid) * (score_playlist ids amap l).1 := by
  have he : eval_playlist ids amap st (.ok l) =
      add_candidates ids (score_playlist ids amap l).1 st l := by
    simp [eval_playlist, hs]
  rw [he]
  exact agetD_add_candidates ids _ st l tid hid

/-- Witness for C10: the candidate id "c" occurs twice in the evaluated
playlist and receives 2 × score. -/
theorem per_occurrence_accumulation_witness :
    agetD (eval_playlist (["i"].toFinset) [("i", "a")] ⟨[], []⟩
        (.ok [⟨"i", "u", "s", ["a"]⟩, ⟨"c", "uc", "n", ["x"]⟩,
          ⟨"c", "uc", "n", ["x"]⟩])).scores "c" =
      agetD (⟨[], []⟩ : EvalState).scores "c" +
        ([⟨"i", "u", "s", ["a"]⟩, ⟨"c", "uc", "n", ["x"]⟩,
          ⟨"c", "uc", "n", ["x"]⟩] : List Track).countP (fun t => t.id == "c") *
          (score_playlist (["i"].toFinset) [("i", "a")]
            [⟨"i", "u", "s", ["a"]⟩, ⟨"c", "uc", "n", ["x"]⟩,
              ⟨"c", "uc", "n", ["x"]⟩]).1 :=
  per_occurrence_accumulation (["i"].toFinset) [("i", "a")] ⟨[], []⟩
    [⟨"i", "u", "s", ["a"]⟩, ⟨"c", "uc", "n", ["x"]⟩, ⟨"c", "uc", "n", ["x"]⟩]
    "c" (by decide) (by decide)

/-! Claim C4. -/

/-- Fixture for C4: the shared input track. -/
def c4_input : Track := ⟨"i1", "u1", "s1", ["artX"]⟩

/-- Fixture for C4: first-seen copy of candidate "c" (in playlist p1). -/
def c4_first : Track := ⟨"c", "uc", "NameA", ["x"]⟩

/-- Fixture for C4: later duplicate of candidate "c" (in playlist p2),
differing in the name field. -/
def c4_last : Track := ⟨"c", "uc", "NameB", ["x"]⟩

/-- Fixture for C4: a catalogue whose search surfaces playlists p1 and p2
(in that discovery order), both matching the input and both containing
candidate id "c" with different records. -/
def c4_cat : Catalogue where
  search := fun _ _ => .ok [some "p1", some "p2"]
  playlist_tracks := fun pid =>
    if pid = "p1" then .ok [c4_input, c4_first]
    else if pid = "p2" then .ok [c4_input, c4_last]
    else .error ()
  playlist_name := fun _ => "Input"
  create := fun _ _ _ => "ref"

/-- C4 (counterexample): p1 is evaluated before p2 and records NameA for
candidate "c"; after p2 is evaluated the stored record is NameB — the
later duplicate DID overwrite the stored record's fields
(`candidate_info[t["id"]] = t` assigns unconditionally). -/
theorem candidate_info_first_seen_cex :
    c4_cat.playlist_tracks "p1" = .ok [c4_input, c4_first] ∧
    c4_cat.playlist_tracks "p2" = .ok [c4_input, c4_last] ∧
    (find_recommendations c4_cat [c4_input] 50 5).map (fun r => alookup r.2 "c") =
      some (some c4_last) ∧
    c4_last.name ≠ c4_first.name := by
  refine ⟨rfl, rfl, ?_, by decide⟩
  have hmc : most_common [("p1", 1), ("p2", 1)] 50 = [("p1", 1), ("p2", 1)] := by
    simp [most_common, most_common_ranked, rank_le, List.enum, List.enumFrom,
      List.mergeSort, List.merge]
  have hd : discover_playlists c4_cat [c4_input] 5 = some [("p1", 1), ("p2", 1)] := by
    decide
  have hm : build_artist_map [c4_input] = some [("i1", "artX")] := by decide
  simp only [find_recommendations, hd, hm, hmc]
  decide

/-- C4 (amended, proved): the CandidateInfo entry for a non-input id is
the LAST-seen copy — over one playlist's candidate loop the stored
record ends as the playlist's last occurrence of that id (keeping the
previous record when the playlist has none) — while the numeric score
accumulates additively. -/
theorem candidate_info_last_seen (ids : Finset String) (s : Nat)
    (st : EvalState) (l : List Track) (tid : String) (hid : tid ∉ ids) :
    alookup (add_candidates ids s st l).info tid =
      (match l.reverse.find? (fun t => t.id == tid) with
       | some t => some t
       | none => alookup st.info tid) ∧
    agetD (add_candidates ids s st l).scores tid =
      agetD st.scores tid + l.countP (fun t => t.id == tid) * s :=
  ⟨alookup_add_candidates_info ids s st l tid hid,
   agetD_add_candidates ids s st l tid hid⟩

/-- Witness for the amended C4: two copies of id "c" in one playlist; the
stored record is the second copy. -/
theorem candidate_info_last_seen_witness :
    alookup (add_candidates (["i"].toFinset) 3 ⟨[], []⟩
        [⟨"c", "uc", "NameA", ["x"]⟩, ⟨"c", "uc", "NameB", ["x"]⟩]).info "c" =
      (match ([⟨"c", "uc", "NameA", ["x"]⟩,
          ⟨"c", "uc", "NameB", ["x"]⟩] : List Track).reverse.find?
          (fun t => t.id == "c") with
       | some t => some t
       | none => alookup (⟨[], []⟩ : EvalState).info "c") :=
  (candidate_info_last_seen (["i"].toFinset) 3 ⟨[], []⟩
    [⟨"c", "uc", "NameA", ["x"]⟩, ⟨"c", "uc", "NameB", ["x"]⟩] "c" (by decide)).1

/-! Claim C3. -/

/-- C3 (confirmed): the list selected for phase 2
(`hit_counts.most_common(fetch_limit)`) never exceeds `fetch_limit` in
length, and its position-tagged form lists entries of the hit table in
strictly descending hit count with ties broken by ascending table
position (= discovery order, first-discovered first), for every
hit-count table. -/
theorem top_playlists_ranking (items : List (String × Nat)) (n : Nat) :
    (most_common items n).length ≤ n ∧
    most_common items n = ((most_common_ranked items).take n).map Prod.snd ∧
    (∀ p ∈ (most_common_ranked items).take n, items.get? p.1 = some p.2) ∧
    ((most_common_ranked items).take n).Pairwise
      (fun a b => b.2.2 < a.2.2 ∨ (a.2.2 = b.2.2 ∧ a.1 < b.1)) := by
  refine ⟨?_, rfl, ?_, ?_⟩
  · rw [most_common, List.length_map, List.length_take]
    exact inf_le_left
  · intro p hp
    have hq : p ∈ items.enum :=
      mem_enum_of_mem_most_common_ranked items p (List.mem_of_mem_take hp)
    obtain ⟨i, x⟩ := p
    obtain ⟨hlt, hx⟩ := List.mem_enum hq
    rw [List.get?_eq_getElem?, List.getElem?_eq_getElem hlt, hx]
  · have h1 := most_common_ranked_pairwise items
    have h2 : (most_common_ranked items).Pairwise (fun a b => a.1 ≠ b.1) :=
      List.pairwise_map.mp (most_common_ranked_fst_nodup items)
    have h4 : (most_common_ranked items).Pairwise
        (fun a b => b.2.2 < a.2.2 ∨ (a.2.2 = b.2.2 ∧ a.1 < b.1)) := by
      refine (h1.and h2).imp ?_
      rintro a b ⟨hle, hne⟩
      simp only [rank_le, Bool.or_eq_true, Bool.and_eq_true,
        decide_eq_true_eq] at hle
      rcases hle with h | ⟨he, hle⟩
      · exact Or.inl h
      · exact Or.inr ⟨he, lt_of_le_of_ne hle hne⟩
    exact List.Pairwise.sublist (List.take_sublist n _) h4

/-- Witness for C3 on the concrete table
p:1, q:3, r:3, s:2 with fetch limit 3: the selection is at most 3 long
and the tagged entry (1, q, 3) — q was discovered before its tie r —
points back at position 1 of the table. -/
theorem top_playlists_ranking_witness :
    (most_common [("p", 1), ("q", 3), ("r", 3), ("s", 2)] 3).length ≤ 3 ∧
    ([("p", 1), ("q", 3), ("r", 3), ("s", 2)] :
      List (String × Nat)).get? 1 = some ("q", 3) :=
  ⟨(top_playlists_ranking [("p", 1), ("q", 3), ("r", 3), ("s", 2)] 3).1,
   (top_playlists_ranking [("p", 1), ("q", 3), ("r", 3), ("s", 2)] 3).2.2.1
     (1, ("q", 3))
     (by simp [most_common_ranked, rank_le, List.enum, List.enumFrom,
       List.mergeSort, List.merge])⟩

/-! Claim C2. -/

/-- The phase-2 run state after the first n selected playlists have been
evaluated. -/
def run_point (cat : Catalogue) (ids : Finset String)
    (amap : List (String × String)) (tops : List (String × Nat)) (n : Nat) :
    EvalState :=
  (tops.take n).foldl
    (fun st ph => eval_playlist ids amap st (cat.playlist_tracks ph.1)) ⟨[], []⟩

/-- C2 (confirmed): at every point of a run — after each selected
playlist, and at any intermediate point of a playlist's candidate loop —
and in the final result of `find_recommendations`, every id in the score
table is also in the info table, and no id of either table belongs to
the input playlist's track-id set, for all inputs. -/
theorem candidate_tables_invariant (cat : Catalogue) (input_tracks : List Track)
    (fl srpt : Nat) :
    (∀ amap hits n, build_artist_map input_tracks = some amap →
        discover_playlists cat input_tracks srpt = some hits →
        TablesInv ((input_tracks.map Track.id).toFinset)
          (run_point cat ((input_tracks.map Track.id).toFinset) amap
            (most_common hits fl) n)) ∧
    (∀ (s : Nat) (st : EvalState) (l : List Track) (m : Nat),
        TablesInv ((input_tracks.map Track.id).toFinset) st →
        TablesInv ((input_tracks.map Track.id).toFinset)
          (add_candidates ((input_tracks.map Track.id).toFinset) s st (l.take m))) ∧
    (∀ scores info,
        find_recommendations cat input_tracks fl srpt = some (scores, info) →
        TablesInv ((input_tracks.map Track.id).toFinset) ⟨scores, info⟩) := by
  refine ⟨?_, ?_, ?_⟩
  · intro amap hits n _ _
    exact foldl_eval_inv cat _ amap _ ⟨[], []⟩ (empty_tables_inv _)
  · intro s st l m h
    exact add_candidates_inv _ s st _ h
  · intro scores info h
    exact find_recommendations_inv cat input_tracks fl srpt scores info h

/-- Fixture for the C2 witness: input track. -/
def w2_input : Track := ⟨"i1", "u1", "s1", ["artX"]⟩

/-- Fixture for the C2 witness: the candidate track. -/
def w2_cand : Track := ⟨"c", "uc", "n", ["x"]⟩

/-- Fixture for the C2 witness: one discovered playlist containing the
input track and one candidate. -/
def w2_cat : Catalogue where
  search := fun _ _ => .ok [some "p1"]
  playlist_tracks := fun pid =>
    if pid = "p1" then .ok [w2_input, w2_cand] else .error ()
  playlist_name := fun _ => "Input"
  create := fun _ _ _ => "ref"

/-- Witness for C2: the invariant holds of the concrete final tables of a
concrete run. -/
theorem candidate_tables_invariant_witness :
    TablesInv (([w2_input].map Track.id).toFinset)
      ⟨[("c", 1)], [("c", w2_cand)]⟩ :=
  (candidate_tables_invariant w2_cat [w2_input] 50 5).2.2 [("c", 1)]
    [("c", w2_cand)]
    (by
      have hmc : most_common [("p1", 1)] 50 = [("p1", 1)] := by
        simp [most_common, most_common_ranked, rank_le, List.enum,
          List.enumFrom, List.mergeSort, List.merge]
      have hd : discover_playlists w2_cat [w2_input] 5 = some [("p1", 1)] := by
        decide
      have hm : build_artist_map [w2_input] = some [("i1", "artX")] := by decide
      simp only [find_recommendations, hd, hm, hmc]
      decide)

/-! Claim C6. -/

/-- C6 (confirmed): a catalogue failure on one per-track search is
converted into an empty result (hit counts unchanged for that track, the
loop continues with the remaining tracks), and a failure fetching one
selected playlist's track list leaves the candidate tables unchanged
while the evaluation continues with the remaining playlists. -/
theorem catalogue_failure_recovery :
    (∀ (cat : Catalogue) (t : Track) (lim : Nat) (q : String),
        search_query t = some q → cat.search q lim = .error () →
        search_public_playlists cat t lim = some []) ∧
    (∀ (cat : Catalogue) (srpt : Nat) (t : Track) (rest : List Track)
        (counts : List (String × Nat)) (q : String),
        search_query t = some q → cat.search q srpt = .error () →
        discover_aux cat srpt (t :: rest) counts =
          discover_aux cat srpt rest counts) ∧
    (∀ (cat : Catalogue) (ids : Finset String) (amap : List (String × String))
        (st : EvalState) (ph : String × Nat) (rest : List (String × Nat)),
        cat.playlist_tracks ph.1 = .error () →
        (ph :: rest).foldl
            (fun s p => eval_playlist ids amap s (cat.playlist_tracks p.1)) st =
          rest.foldl
            (fun s p => eval_playlist ids amap s (cat.playlist_tracks p.1)) st) := by
  refine ⟨?_, ?_, ?_⟩
  · intro cat t lim q hq he
    simp [search_public_playlists, hq, he]
  · intro cat srpt t rest counts q hq he
    simp [discover_aux, search_public_playlists, hq, he]
  · intro cat ids amap st ph rest he
    simp [List.foldl_cons, eval_playlist, he]

/-- Fixture for the C6 witness: a catalogue that fails every call. -/
def w6_cat : Catalogue where
  search := fun _ _ => .error ()
  playlist_tracks := fun _ => .error ()
  playlist_name := fun _ => ""
  create := fun _ _ _ => ""

/-- Witness for C6 at a concrete failing catalogue. -/
theorem catalogue_failure_recovery_witness :
    search_public_playlists w6_cat ⟨"i", "u", "s", ["a"]⟩ 5 = some [] ∧
    discover_aux w6_cat 5 [⟨"i", "u", "s", ["a"]⟩] [("p", 1)] =
      discover_aux w6_cat 5 [] [("p", 1)] ∧
    ([("p", 2)] : List (String × Nat)).foldl
        (fun s p => eval_playlist ∅ [] s (w6_cat.playlist_tracks p.1)) ⟨[], []⟩ =
      ([] : List (String × Nat)).foldl
        (fun s p => eval_playlist ∅ [] s (w6_cat.playlist_tracks p.1)) ⟨[], []⟩ :=
  ⟨catalogue_failure_recovery.1 w6_cat ⟨"i", "u", "s", ["a"]⟩ 5 "s a" (by decide)
     rfl,
   catalogue_failure_recovery.2.1 w6_cat 5 ⟨"i", "u", "s", ["a"]⟩ [] [("p", 1)]
     "s a" (by decide) rfl,
   catalogue_failure_recovery.2.2 w6_cat ∅ [] ⟨[], []⟩ ("p", 2) [] rfl⟩

/-! Claim C7. -/

/-- C7 (confirmed): each playlist id returned by one input track's search
increments that playlist's hit count by exactly 1, duplicates within a
query counting once, so a playlist's final hit count equals the number
of input-track searches whose (recovered) result contains it. -/
theorem hit_count_distinct_searches (cat : Catalogue) (srpt : Nat)
    (input_tracks : List Track) (pid : String)
    (h : ∀ t ∈ input_tracks, t.artists ≠ []) :
    ∃ counts, discover_playlists cat input_tracks srpt = some counts ∧
      agetD counts pid = input_tracks.countP
        (fun t => decide (pid ∈ (search_public_playlists cat t srpt).getD [])) := by
  obtain ⟨counts, hc, ha⟩ := discover_aux_spec cat srpt input_tracks [] pid h
  exact ⟨counts, hc, by simpa [agetD, alookup] using ha⟩

/-- Fixture for the C7 witness: every search returns playlist "p" twice
in the same query. -/
def w7_cat : Catalogue where
  search := fun _ _ => .ok [some "p", some "p"]
  playlist_tracks := fun _ => .error ()
  playlist_name := fun _ => ""
  create := fun _ _ _ => ""

/-- Witness for C7: two input tracks, each of whose queries returns "p"
twice; the hit count ends at 2, not 4. -/
theorem hit_count_distinct_searches_witness :
    ∃ counts,
      discover_playlists w7_cat
          [⟨"i1", "u1", "s1", ["a1"]⟩, ⟨"i2", "u2", "s2", ["a2"]⟩] 5 =
        some counts ∧
      agetD counts "p" =
        ([⟨"i1", "u1", "s1", ["a1"]⟩, ⟨"i2", "u2", "s2", ["a2"]⟩] :
            List Track).countP
          (fun t => decide ("p" ∈ (search_public_playlists w7_cat t 5).getD [])) :=
  hit_count_distinct_searches w7_cat 5
    [⟨"i1", "u1", "s1", ["a1"]⟩, ⟨"i2", "u2", "s2", ["a2"]⟩] "p" (by decide)

/-! Claim C9. -/

/-- C9 (confirmed): the primary-artist map build and the search-query
construction index `artists[0]` unguarded.  When every input track has a
non-empty artist list both operations — and `find_recommendations` as a
whole — are well-defined; when some input track has an empty artist list
the map construction, and with it `find_recommendations`, fails with the
modelled out-of-range access instead of returning a result, and
`search_query` fails exactly on an empty artist list. -/
theorem primary_artist_indexing (cat : Catalogue) (input_tracks : List Track)
    (fl srpt : Nat) :
    ((∀ t ∈ input_tracks, t.artists ≠ []) →
        (build_artist_map input_tracks).isSome = true ∧
        (∀ t ∈ input_tracks, (search_query t).isSome = true) ∧
        (find_recommendations cat input_tracks fl srpt).isSome = true) ∧
    ((∃ t ∈ input_tracks, t.artists = []) →
        build_artist_map input_tracks = none ∧
        find_recommendations cat input_tracks fl srpt = none) ∧
    (∀ t : Track, search_query t = none ↔ t.artists = []) := by
  have hsq : ∀ t : Track, search_query t = none ↔ t.artists = [] := by
    intro t
    cases hta : t.artists with
    | nil => simp [search_query, hta]
    | cons a as => simp [search_query, hta]
  refine ⟨?_, ?_, hsq⟩
  · intro h
    have hb : (build_artist_map input_tracks).isSome = true := by
      rw [Option.isSome_iff_ne_none]
      intro hn
      obtain ⟨t, ht, hta⟩ := (build_artist_map_aux_eq_none input_tracks []).mp hn
      exact h t ht hta
    obtain ⟨amap, hm⟩ := Option.isSome_iff_exists.mp hb
    obtain ⟨hits, hd, _⟩ := discover_aux_spec cat srpt input_tracks [] "" h
    refine ⟨hb, ?_, ?_⟩
    · intro t ht
      rw [Option.isSome_iff_ne_none]
      intro hn
      exact h t ht ((hsq t).mp hn)
    · simp only [find_recommendations, discover_playlists, hm, hd]
      by_cases hz : hits = [] <;> simp [hz]
  · intro hex
    have hm : build_artist_map input_tracks = none :=
      (build_artist_map_aux_eq_none input_tracks []).mpr hex
    exact ⟨hm, by simp [find_recommendations, hm]⟩

/-- Fixture for the C9 witness: a catalogue that is never reached on the
failing side and answers emptily on the succeeding side. -/
def w9_cat : Catalogue where
  search := fun _ _ => .ok []
  playlist_tracks := fun _ => .error ()
  playlist_name := fun _ => ""
  create := fun _ _ _ => ""

/-- Witness for C9: a track with an empty artist list makes
`find_recommendations` fail, and with a non-empty artist list everything
is defined. -/
theorem primary_artist_indexing_witness :
    (build_artist_map [⟨"i", "u", "s", []⟩] = none ∧
      find_recommendations w9_cat [⟨"i", "u", "s", []⟩] 50 5 = none) ∧
    (find_recommendations w9_cat [⟨"i", "u", "s", ["a"]⟩] 50 5).isSome = true :=
  ⟨(primary_artist_indexing w9_cat [⟨"i", "u", "s", []⟩] 50 5).2.1
     ⟨⟨"i", "u", "s", []⟩, by simp, rfl⟩,
   ((primary_artist_indexing w9_cat [⟨"i", "u", "s", ["a"]⟩] 50 5).1
     (by decide)).2.2⟩

/-! Claim C8. -/

/-- C8 (confirmed): `main` exits 1 when credentials are missing or empty,
when the input playlist yields zero tracks — in which case no discovery
search has been issued — and when the candidate score table is empty
after evaluation; on success it exits 0 with the created playlist's
shareable reference printed. -/
theorem main_exit_codes (cid csec : Option String) (cat : Catalogue)
    (parg : String) (narg : Option String) (count fl srpt : Nat) :
    (creds_missing cid csec = true →
        main cid csec cat parg narg count fl srpt = some ⟨1, none, 0⟩) ∧
    (creds_missing cid csec = false →
        cat.playlist_tracks (extract_playlist_id parg) = .ok [] →
        main cid csec cat parg narg count fl srpt = some ⟨1, none, 0⟩) ∧
    (∀ input_tracks info,
        creds_missing cid csec = false →
        cat.playlist_tracks (extract_playlist_id parg) = .ok input_tracks →
        input_tracks ≠ [] →
        find_recommendations cat input_tracks fl srpt = some ([], info) →
        main cid csec cat parg narg count fl srpt =
          some ⟨1, none, input_tracks.length⟩) ∧
    (∀ input_tracks scores info,
        creds_missing cid csec = false →
        cat.playlist_tracks (extract_playlist_id parg) = .ok input_tracks →
        input_tracks ≠ [] →
        find_recommendations cat input_tracks fl srpt = some (scores, info) →
        scores ≠ [] →
        ∃ rec_uris,
          main cid csec cat parg narg count fl srpt =
            some ⟨0, some (cat.create
              (narg.getD ("Recommendations from "
                ++ cat.playlist_name (extract_playlist_id parg)))
              ("Auto-generated recommendations based on '"
                ++ cat.playlist_name (extract_playlist_id parg)
                ++ "'. Songs that frequently appear alongside your favorites in public playlists.")
              rec_uris), input_tracks.length⟩) := by
  refine ⟨?_, ?_, ?_, ?_⟩
  · intro h
    simp [main, h]
  · intro h1 h2
    simp [main, h1, h2]
  · intro input_tracks info h1 h2 h3 h4
    simp [main, h1, h2, h3, h4]
  · intro input_tracks scores info h1 h2 h3 h4 h5
    have hinv := find_recommendations_inv cat input_tracks fl srpt scores info h4
    have hsome : ∀ p ∈ most_common scores count,
        ((alookup info p.1).map Track.uri).isSome = true := by
      intro p hp
      have hmem : p ∈ scores := mem_of_mem_most_common scores count p hp
      have hsc : (alookup scores p.1).isSome = true :=
        alookup_isSome_of_mem scores p.1 p.2 (by simpa using hmem)
      obtain ⟨tr, htr⟩ := Option.isSome_iff_exists.mp (hinv.1 p.1 hsc)
      simp [htr]
    obtain ⟨uris, hu⟩ := mapM_option_isSome
      (fun p => (alookup info p.1).map Track.uri) (most_common scores count) hsome
    have hu' : List.mapM.loop (fun p => (alookup info p.1).map Track.uri)
        (most_common scores count) [] = some uris := hu
    refine ⟨uris, ?_⟩
    simp [main, h1, h2, h3, h4, h5, hu, hu']

/-- Fixture for the C8 witness: input track of playlist "in". -/
def w8_input : Track := ⟨"i1", "u1", "s1", ["artX"]⟩

/-- Fixture for the C8 witness: the candidate track. -/
def w8_cand : Track := ⟨"c", "uc", "n", ["x"]⟩

/-- Fixture for the C8 witness: serves the input playlist "in" and one
discovered playlist "p1" containing the input track and a candidate. -/
def w8_cat : Catalogue where
  search := fun _ _ => .ok [some "p1"]
  playlist_tracks := fun pid =>
    if pid = "in" then .ok [w8_input]
    else if pid = "p1" then .ok [w8_input, w8_cand]
    else .error ()
  playlist_name := fun _ => "My Playlist"
  create := fun _ _ _ => "shareref"

/-- Witness for C8: a missing-credentials run exits 1 having issued no
search, and a concrete successful run exits 0 printing the created
playlist's reference. -/
theorem main_exit_codes_witness :
    main none (some "y") w8_cat "in" none 30 50 5 = some ⟨1, none, 0⟩ ∧
    ∃ rec_uris,
      main (some "x") (some "y") w8_cat "in" none 30 50 5 =
        some ⟨0, some (w8_cat.create
          ((none : Option String).getD ("Recommendations from "
            ++ w8_cat.playlist_name (extract_playlist_id "in")))
          ("Auto-generated recommendations based on '"
            ++ w8_cat.playlist_name (extract_playlist_id "in")
            ++ "'. Songs that frequently appear alongside your favorites in public playlists.")
          rec_uris), ([w8_input] : List Track).length⟩ :=
  ⟨(main_exit_codes none (some "y") w8_cat "in" none 30 50 5).1 rfl,
   (main_exit_codes (some "x") (some "y") w8_cat "in" none 30 50 5).2.2.2
     [w8_input] [("c", 1)] [("c", w8_cand)] rfl (by rfl) (by decide)
     (by
       have hmc : most_common [("p1", 1)] 50 = [("p1", 1)] := by
         simp [most_common, most_common_ranked, rank_le, List.enum,
           List.enumFrom, List.mergeSort, List.merge]
       have hd : discover_playlists w8_cat [w8_input] 5 = some [("p1", 1)] := by
         decide
       have hm : build_artist_map [w8_input] = some [("i1", "artX")] := by decide
       simp only [find_recommendations, hd, hm, hmc]
       decide)
     (by decide)⟩

end Recommend
